import Mathlib

/-!
Verification of the resource-graph declarations in `src/__main__.py` of the
aws-infra repository against its natural-language specification.

The Python module declares nineteen cloud resource descriptors (an IAM role,
policy attachments, a DynamoDB table, a Lambda function, a Cognito user pool
and client, an HTTP API, a custom domain, an API mapping, a JWT authorizer, a
Lambda integration, five routes and a Lambda permission), wires references
between them, and exports eight output values.  The shallow embedding below
models strings as `List Char` (matching Python `str.split` semantics), each
descriptor as a constructor of `RName` together with the list of descriptors
whose outputs it references, and the provisioning engine's ordering and
diffing behaviour as executable functions.
-/

namespace AwsInfra

/-- Coerce a Lean string literal to the `List Char` representation used for
Python strings throughout this development. -/
def str (s : String) : List Char := s.data

/-- Embedding of Python `s.split(d)` for a one-character separator `d`:
splitting the empty string yields `[[]]` (Python `[''].`), and every
occurrence of `d` starts a new component. -/
def pySplit (d : Char) : List Char → List (List Char)
  | [] => [[]]
  | c :: cs =>
    if c = d then [] :: pySplit d cs
    else (c :: (pySplit d cs).headD []) :: (pySplit d cs).tail

/-- Embedding of `format_integration_target` from `src/__main__.py` lines
247-250: when the composite id contains the delimiter `'|'` the result is
`"integrations/"` followed by component 1 of the split (Python indexing `[1]`
is modelled by `List.get?`, `none` standing for an `IndexError`); otherwise
the sentinel string `"integrations/error-invalid-id-format"` is substituted. -/
def format_integration_target (composite_id : List Char) : Option (List Char) :=
  if '|' ∈ composite_id then
    ((pySplit '|' composite_id).get? 1).map fun comp => str "integrations/" ++ comp
  else
    some (str "integrations/error-invalid-id-format")

/-- Error raised by the specified (but not implemented) decomposition
operation. -/
inductive ComposeError
  | MalformedIdentifierError
deriving DecidableEq

/-- Modelled from the spec: `composeIdentifier(deferred, delimiter, index)`
(spec section 4.1) splits a resolved composite identifier on the delimiter and
selects the `index`-th component, failing with `MalformedIdentifierError` when
the string does not contain the delimiter or the index is out of range.  The
source only contains the sentinel-substituting variant
`format_integration_target`. -/
def composeIdentifier (s : List Char) (d : Char) (index : Nat) :
    Except ComposeError (List Char) :=
  if d ∈ s then
    match (pySplit d s).get? index with
    | some comp => Except.ok comp
    | none => Except.error ComposeError.MalformedIdentifierError
  else
    Except.error ComposeError.MalformedIdentifierError

/-- Logical names of the nineteen resource descriptors declared in
`src/__main__.py`, in source order. -/
inductive RName
  | stockApiLambdaRole
  | stockApiLambdaLogPolicyAttachment
  | brokerDataTable
  | stockApiLambdaDynamoDbPolicy
  | stockApiLambdaDynamoDbAttachment
  | brokerBackendFunction
  | brokerUserPool
  | brokerUserPoolClient
  | stockHttpApi
  | brokerApiCustomDomain
  | brokerApiMapping
  | brokerJwtAuthorizer
  | brokerBackendIntegration
  | authProfileRoute
  | stockQuotesRoute
  | stockNewsRoute
  | portfolioGetRoute
  | portfolioPostRoute
  | brokerApiLambdaPermission
deriving DecidableEq

/-- Reference edges of the declared graph: `brokerRefs n` lists the
descriptors whose output values descriptor `n` consumes in
`src/__main__.py` (role/table ARNs and names, api ids, integration ids,
authorizer ids, user-pool and client ids). -/
def brokerRefs : RName → List RName
  | .stockApiLambdaRole => []
  | .stockApiLambdaLogPolicyAttachment => [.stockApiLambdaRole]
  | .brokerDataTable => []
  | .stockApiLambdaDynamoDbPolicy => [.brokerDataTable]
  | .stockApiLambdaDynamoDbAttachment =>
      [.stockApiLambdaRole, .stockApiLambdaDynamoDbPolicy]
  | .brokerBackendFunction => [.stockApiLambdaRole, .brokerDataTable]
  | .brokerUserPool => []
  | .brokerUserPoolClient => [.brokerUserPool]
  | .stockHttpApi => []
  | .brokerApiCustomDomain => []
  | .brokerApiMapping => [.stockHttpApi, .brokerApiCustomDomain]
  | .brokerJwtAuthorizer => [.stockHttpApi, .brokerUserPoolClient, .brokerUserPool]
  | .brokerBackendIntegration => [.stockHttpApi, .brokerBackendFunction]
  | .authProfileRoute => [.stockHttpApi, .brokerBackendIntegration]
  | .stockQuotesRoute =>
      [.stockHttpApi, .brokerBackendIntegration, .brokerJwtAuthorizer]
  | .stockNewsRoute =>
      [.stockHttpApi, .brokerBackendIntegration, .brokerJwtAuthorizer]
  | .portfolioGetRoute =>
      [.stockHttpApi, .brokerBackendIntegration, .brokerJwtAuthorizer]
  | .portfolioPostRoute =>
      [.stockHttpApi, .brokerBackendIntegration, .brokerJwtAuthorizer]
  | .brokerApiLambdaPermission => [.brokerBackendFunction, .stockHttpApi]

/-- The nineteen descriptors in source declaration order. -/
def brokerNodes : List RName :=
  [.stockApiLambdaRole, .stockApiLambdaLogPolicyAttachment, .brokerDataTable,
   .stockApiLambdaDynamoDbPolicy, .stockApiLambdaDynamoDbAttachment,
   .brokerBackendFunction, .brokerUserPool, .brokerUserPoolClient,
   .stockHttpApi, .brokerApiCustomDomain, .brokerApiMapping,
   .brokerJwtAuthorizer, .brokerBackendIntegration, .authProfileRoute,
   .stockQuotesRoute, .stockNewsRoute, .portfolioGetRoute,
   .portfolioPostRoute, .brokerApiLambdaPermission]

/-- Source-order position of each descriptor; every reference edge points to
a strictly smaller position, witnessing acyclicity of the declared graph. -/
def brokerRank : RName → Nat
  | .stockApiLambdaRole => 0
  | .stockApiLambdaLogPolicyAttachment => 1
  | .brokerDataTable => 2
  | .stockApiLambdaDynamoDbPolicy => 3
  | .stockApiLambdaDynamoDbAttachment => 4
  | .brokerBackendFunction => 5
  | .brokerUserPool => 6
  | .brokerUserPoolClient => 7
  | .stockHttpApi => 8
  | .brokerApiCustomDomain => 9
  | .brokerApiMapping => 10
  | .brokerJwtAuthorizer => 11
  | .brokerBackendIntegration => 12
  | .authProfileRoute => 13
  | .stockQuotesRoute => 14
  | .stockNewsRoute => 15
  | .portfolioGetRoute => 16
  | .portfolioPostRoute => 17
  | .brokerApiLambdaPermission => 18

/-- Failure of the apply step. -/
inductive ApplyError
  | CyclicDependencyError
deriving DecidableEq

/-- Modelled from the spec: the submission loop of `apply` (spec section 4.1),
which is part of the external provisioning engine and absent from `src/`.
At each step it submits some pending descriptor all of whose references have
already been submitted; if none exists (or the fuel, bounded by the node
count, runs out) the graph is cyclic and `CyclicDependencyError` is raised. -/
def applyOrder [DecidableEq α] (refs : α → List α) :
    Nat → List α → List α → Except ApplyError (List α)
  | _, done, [] => Except.ok done.reverse
  | 0, _, _ :: _ => Except.error ApplyError.CyclicDependencyError
  | fuel + 1, done, p :: ps =>
    match List.find? (fun x => (refs x).all fun r => decide (r ∈ done)) (p :: ps) with
    | some x => applyOrder refs fuel (x :: done) ((p :: ps).erase x)
    | none => Except.error ApplyError.CyclicDependencyError

/-- Modelled from the spec: `apply` submits the descriptors of the graph in
dependency order, or fails with `CyclicDependencyError`. -/
def applyGraph [DecidableEq α] (refs : α → List α) (nodes : List α) :
    Except ApplyError (List α) :=
  applyOrder refs nodes.length [] nodes

/-- Every reference of every node stays inside the graph. -/
abbrev Closed (refs : α → List α) (nodes : List α) : Prop :=
  ∀ x ∈ nodes, ∀ r ∈ refs x, r ∈ nodes

/-- Acyclicity witnessed by a rank function that strictly decreases along
reference edges. -/
def Acyclic (refs : α → List α) (nodes : List α) : Prop :=
  ∃ rank : α → Nat, ∀ x ∈ nodes, ∀ r ∈ refs x, rank r < rank x

/-- A submission order respects references: whenever `x` is submitted, every
descriptor it references appears among the previously submitted prefix. -/
def RespectsRefs (refs : α → List α) (order : List α) : Prop :=
  ∀ l₁ x l₂, order = l₁ ++ x :: l₂ → ∀ r ∈ refs x, r ∈ l₁

/-- Invariant of the reversed submission prefix: every reference of an
already-submitted descriptor was submitted even earlier (later in the
reversed list). -/
def GoodRev (refs : α → List α) (done : List α) : Prop :=
  ∀ l₁ x l₂, done = l₁ ++ x :: l₂ → ∀ r ∈ refs x, r ∈ l₂

/-- The first descriptor is submitted strictly before the second in the given
order. -/
abbrev SubmittedBefore [DecidableEq α] (order : List α) (x y : α) : Prop :=
  order.indexOf x < order.indexOf y

/-- Nonempty chains of reference edges between nodes of the graph. -/
inductive RefPath (refs : α → List α) (nodes : List α) : α → α → Prop
  | single {x y : α} : x ∈ nodes → y ∈ refs x → RefPath refs nodes x y
  | step {x y z : α} : x ∈ nodes → y ∈ refs x → RefPath refs nodes y z →
      RefPath refs nodes x z

/-- The graph contains a reference cycle: some node reaches itself through a
nonempty chain of reference edges. -/
def HasCycle (refs : α → List α) (nodes : List α) : Prop :=
  ∃ x, RefPath refs nodes x x

/-- Resolved attributes of a descriptor that other declarations consume. -/
inductive Attr
  | nameAttr
  | arn
  | rid
  | api_endpoint
deriving DecidableEq

/-- An API route descriptor as declared in `src/__main__.py`: its HTTP route
key, the integration whose composite id feeds `format_integration_target` to
build the `target` field, the declared authorization fields, and the
replacement options. -/
structure RouteSpec where
  api_id : RName
  route_key : String
  targetSource : RName
  authorization_type : Option String
  authorizer_id : Option RName
  replace_on_changes : List String
  delete_before_replace : Bool
deriving DecidableEq

/-- Embedding of `auth_profile_route` (`src/__main__.py` lines 255-263): the
`GET /api/auth` route is declared with no `authorization_type` and no
`authorizer_id`. -/
def auth_profile_route : RouteSpec :=
  { api_id := .stockHttpApi
    route_key := "GET /api/auth"
    targetSource := .brokerBackendIntegration
    authorization_type := none
    authorizer_id := none
    replace_on_changes := ["target"]
    delete_before_replace := true }

/-- Embedding of `quotes_route` (`src/__main__.py` lines 266-276). -/
def quotes_route : RouteSpec :=
  { api_id := .stockHttpApi
    route_key := "GET /api/stock-quotes"
    targetSource := .brokerBackendIntegration
    authorization_type := some "JWT"
    authorizer_id := some .brokerJwtAuthorizer
    replace_on_changes := ["target"]
    delete_before_replace := true }

/-- Embedding of `news_route` (`src/__main__.py` lines 278-288). -/
def news_route : RouteSpec :=
  { api_id := .stockHttpApi
    route_key := "GET /api/company-news"
    targetSource := .brokerBackendIntegration
    authorization_type := some "JWT"
    authorizer_id := some .brokerJwtAuthorizer
    replace_on_changes := ["target"]
    delete_before_replace := true }

/-- Embedding of `portfolio_get_route` (`src/__main__.py` lines 290-300). -/
def portfolio_get_route : RouteSpec :=
  { api_id := .stockHttpApi
    route_key := "GET /api/portfolio"
    targetSource := .brokerBackendIntegration
    authorization_type := some "JWT"
    authorizer_id := some .brokerJwtAuthorizer
    replace_on_changes := ["target"]
    delete_before_replace := true }

/-- Embedding of `portfolio_post_route` (`src/__main__.py` lines 302-312). -/
def portfolio_post_route : RouteSpec :=
  { api_id := .stockHttpApi
    route_key := "POST /api/portfolio"
    targetSource := .brokerBackendIntegration
    authorization_type := some "JWT"
    authorizer_id := some .brokerJwtAuthorizer
    replace_on_changes := ["target"]
    delete_before_replace := true }

/-- The five routes declared in the module, in source order. -/
def apiRoutes : List RouteSpec :=
  [auth_profile_route, quotes_route, news_route,
   portfolio_get_route, portfolio_post_route]

/-- The JWT authorizer descriptor as declared in `src/__main__.py` lines
200-214: its accepted audience is the one-element list holding the user pool
client's id, and its issuer is derived from the user pool recorded in
`issuerPool`. -/
structure AuthorizerSpec where
  api_id : RName
  name : String
  authorizer_type : String
  identity_source : List String
  audience : List RName
  issuerPool : RName
deriving DecidableEq

/-- Embedding of the issuer lambda of `jwt_authorizer`: the identity-provider
URL built from the region name and the resolved user pool id. -/
def jwtIssuer (region pool_id : String) : String :=
  "https://cognito-idp." ++ region ++ ".amazonaws.com/" ++ pool_id

/-- Embedding of `jwt_authorizer` (`src/__main__.py` lines 200-214). -/
def jwt_authorizer : AuthorizerSpec :=
  { api_id := .stockHttpApi
    name := "CognitoJwtAuthorizer"
    authorizer_type := "JWT"
    identity_source := ["$request.header.Authorization"]
    audience := [.brokerUserPoolClient]
    issuerPool := .brokerUserPool }

/-- The user pool client descriptor (`src/__main__.py` lines 131-146): the
pool whose `id` output its `user_pool_id` field references. -/
structure ClientSpec where
  name : String
  user_pool_id : RName
  generate_secret : Bool
deriving DecidableEq

/-- Embedding of `user_pool_client`. -/
def user_pool_client : ClientSpec :=
  { name := "BrokerAppClient"
    user_pool_id := .brokerUserPool
    generate_secret := true }

/-- One `pulumi.export` line: the export key together with the resource and
attribute whose resolved value it exposes. -/
structure ExportEntry where
  key : String
  source : RName
  attr : Attr
deriving DecidableEq

/-- Embedding of the export block (`src/__main__.py` lines 340-349), in
source order. -/
def exports : List ExportEntry :=
  [⟨"lambda_function_name", .brokerBackendFunction, .nameAttr⟩,
   ⟨"lambda_function_arn", .brokerBackendFunction, .arn⟩,
   ⟨"lambda_role_arn", .stockApiLambdaRole, .arn⟩,
   ⟨"api_gateway_id", .stockHttpApi, .rid⟩,
   ⟨"dynamodb_table_name", .brokerDataTable, .nameAttr⟩,
   ⟨"api_gateway_invoke_url", .stockHttpApi, .api_endpoint⟩,
   ⟨"cognito_user_pool_id", .brokerUserPool, .rid⟩,
   ⟨"cognito_user_pool_client_id", .brokerUserPoolClient, .rid⟩]

/-- A value assigned to one of the compute function's environment variables:
either a literal string or a reference to another descriptor's attribute. -/
inductive EnvVal
  | lit (s : String)
  | ref (r : RName) (a : Attr)
deriving DecidableEq

/-- Embedding of the `environment.variables` bundle of `stock_api_lambda`
(`src/__main__.py` lines 92-101): every configuration-like value is the
hardcoded literal `"null"`; only the table name is a real reference. -/
def functionEnvironment : List (String × EnvVal) :=
  [("FINNHUB_API_KEY", .lit "null"),
   ("COGNITO_TOKEN_ENDPOINT", .lit "null"),
   ("COGNITO_CLIENT_ID", .lit "null"),
   ("COGNITO_CLIENT_SECRET", .lit "null"),
   ("DYNAMODB_TABLE_NAME", .ref .brokerDataTable .nameAttr)]

/-- Error the spec prescribes for an absent required configuration value. -/
inductive BuildError
  | MissingConfigurationError
deriving DecidableEq

/-- Embedding of the module's build step as a function of the ambient
configuration environment.  The source reads no configuration at all: the
`pulumi.Config` lines are commented out and `os` is imported but never
consulted, every descriptor is declared unconditionally, and the function's
environment uses the literal placeholders of `functionEnvironment` — so the
build ignores `env` and always succeeds with the full descriptor list. -/
def buildGraph (_env : String → Option String) : Except BuildError (List RName) :=
  Except.ok brokerNodes

/-- Field bundle of one resource, as a key/value association list. -/
abbrev FieldMap : Type := List (String × String)

/-- Operation the engine plans for one resource on re-apply. -/
inductive Op
  | same
  | update
  | replace
deriving DecidableEq

/-- Keys whose recorded and newly resolved values differ. -/
def diffKeys (old new : FieldMap) : List String :=
  ((old.map Prod.fst ++ new.map Prod.fst).dedup).filter fun k =>
    decide (List.lookup k old ≠ List.lookup k new)

/-- Changed keys the engine actually considers: differing keys minus the
resource's ignore-changes list. -/
def changedKeys (ignored : List String) (old new : FieldMap) : List String :=
  (diffKeys old new).filter fun k => decide (k ∉ ignored)

/-- Modelled from the spec: the provisioning engine's per-resource diff (spec
sections 3 and 4.1), which lives in the external engine and not in `src/`.
A resource with no considered change gets no operation; if any considered
changed field is marked replace-on-change the resource is destroyed and
recreated; otherwise it is updated in place.  Fields listed in the
resource's ignore-changes option (set in the source on the compute function)
are disregarded when diffing. -/
def planResource (replaceOn ignored : List String) (old new : FieldMap) : Op :=
  let ch := changedKeys ignored old new
  if ch.isEmpty then Op.same
  else if ch.any fun k => decide (k ∈ replaceOn) then Op.replace
  else Op.update

/-- Per-resource replace-on-change lists declared in `src/__main__.py`: the
integration replaces on `request_parameters` (lines 241-243) and every route
replaces on `target` (route `opts`). -/
def replaceOnChanges : RName → List String
  | .brokerBackendIntegration => ["request_parameters"]
  | .authProfileRoute => ["target"]
  | .stockQuotesRoute => ["target"]
  | .stockNewsRoute => ["target"]
  | .portfolioGetRoute => ["target"]
  | .portfolioPostRoute => ["target"]
  | _ => []

/-- Per-resource ignore-changes lists declared in `src/__main__.py`: the
compute function ignores `code` and `environment` (line 106). -/
def ignoreChanges : RName → List String
  | .brokerBackendFunction => ["code", "environment"]
  | _ => []

/-- Names of the five route descriptors. -/
def routeNames : List RName :=
  [.authProfileRoute, .stockQuotesRoute, .stockNewsRoute,
   .portfolioGetRoute, .portfolioPostRoute]

/-- The operation planned for each resource of the graph, from its declared
options and its recorded and new field bundles. -/
def planGraph (old new : RName → FieldMap) (n : RName) : Op :=
  planResource (replaceOnChanges n) (ignoreChanges n) (old n) (new n)

/-! Helper lemmas about `pySplit`. -/

theorem pySplit_of_not_mem {d : Char} {s : List Char} (h : d ∉ s) :
    pySplit d s = [s] := by
  induction s with
  | nil => rfl
  | cons c cs ih =>
    rw [List.mem_cons, not_or] at h
    have hcd : ¬ c = d := fun hc => h.1 hc.symm
    simp [pySplit, hcd, ih h.2]

theorem pySplit_append {d : Char} {a : List Char} (b : List Char) (h : d ∉ a) :
    pySplit d (a ++ d :: b) = a :: pySplit d b := by
  induction a with
  | nil => simp [pySplit]
  | cons c cs ih =>
    rw [List.mem_cons, not_or] at h
    have hcd : ¬ c = d := fun hc => h.1 hc.symm
    simp [pySplit, hcd, ih h.2]

/-- C1: for a resolved composite identifier that does not contain the
delimiter `'|'`, the claim says the deployment fails loudly with
`MalformedIdentifierError`; the code (`format_integration_target`) instead
succeeds with the sentinel string `"integrations/error-invalid-id-format"`,
while the decomposition the spec prescribes (`composeIdentifier`) does fail.
This theorem evaluates both at the failing input `"abc123"`. -/
theorem format_integration_target_sentinel :
    format_integration_target (str "abc123") =
      some (str "integrations/error-invalid-id-format") ∧
    composeIdentifier (str "abc123") '|' 1 =
      Except.error ComposeError.MalformedIdentifierError :=
  ⟨rfl, rfl⟩

/-- C3 counterexample: the round-trip claim quantified over all pairs of
strings is false.  With `a = "x|y", b = "z"` the code's decomposition of
`"x|y|z"` at index 1 yields `"y"`, not `b`; with `a = "p", b = "q|r"` it
yields `"q"`, not `b`.  (`format_integration_target` prepends
`"integrations/"` to the selected component.) -/
theorem round_trip_cex :
    format_integration_target (str "x|y" ++ '|' :: str "z") ≠
      some (str "integrations/" ++ str "z") ∧
    format_integration_target (str "p" ++ '|' :: str "q|r") ≠
      some (str "integrations/" ++ str "q|r") := by
  decide

/-- C3 (amended): for every pair of strings `a` and `b` neither of which
contains the delimiter `'|'`, the decomposition used by the code applied to
`"{a}|{b}"` at index 1 yields exactly `b`: the route target built by
`format_integration_target` is `"integrations/" ++ b`. -/
theorem round_trip (a b : List Char) (ha : '|' ∉ a) (hb : '|' ∉ b) :
    format_integration_target (a ++ '|' :: b) =
      some (str "integrations/" ++ b) := by
  have hmem : '|' ∈ a ++ '|' :: b :=
    List.mem_append_right a (List.mem_cons_self _ _)
  rw [format_integration_target, if_pos hmem, pySplit_append b ha,
    pySplit_of_not_mem hb]
  rfl

/-- C3 witness: the round trip at the concrete pair `("apiid", "intid")`. -/
theorem round_trip_witness :
    format_integration_target (str "apiid" ++ '|' :: str "intid") =
      some (str "integrations/" ++ str "intid") :=
  round_trip (str "apiid") (str "intid") (by decide) (by decide)

/-! Helper lemmas about the apply engine. -/

theorem exists_min_rank (rank : α → Nat) (l : List α) (h : l ≠ []) :
    ∃ m ∈ l, ∀ y ∈ l, rank m ≤ rank y := by
  induction l with
  | nil => exact absurd rfl h
  | cons x xs ih =>
    cases xs with
    | nil =>
      refine ⟨x, List.mem_singleton_self x, ?_⟩
      intro y hy
      rw [List.mem_singleton] at hy
      exact hy ▸ le_refl _
    | cons y ys =>
      obtain ⟨m, hm, hmin⟩ := ih (by simp)
      by_cases hr : rank x ≤ rank m
      · refine ⟨x, List.mem_cons_self _ _, ?_⟩
        intro z hz
        rcases List.mem_cons.mp hz with rfl | hz
        · exact le_refl _
        · exact le_trans hr (hmin z hz)
      · refine ⟨m, List.mem_cons_of_mem _ hm, ?_⟩
        intro z hz
        rcases List.mem_cons.mp hz with rfl | hz
        · exact le_of_lt (lt_of_not_le hr)
        · exact hmin z hz

theorem applyOrder_ok_of_rank [DecidableEq α] (refs : α → List α) (rank : α → Nat) :
    ∀ (fuel : Nat) (done pending : List α),
      (∀ x ∈ pending, ∀ r ∈ refs x, rank r < rank x) →
      (∀ x ∈ pending, ∀ r ∈ refs x, r ∈ done ∨ r ∈ pending) →
      pending.length ≤ fuel →
      ∃ order, applyOrder refs fuel done pending = Except.ok order := by
  intro fuel
  induction fuel with
  | zero =>
    intro done pending _ _ hlen
    have hnil : pending = [] := List.eq_nil_of_length_eq_zero (Nat.le_zero.mp hlen)
    subst hnil
    exact ⟨done.reverse, rfl⟩
  | succ n ih =>
    intro done pending hrank hclosed hlen
    cases pending with
    | nil => exact ⟨done.reverse, rfl⟩
    | cons p ps =>
      obtain ⟨m, hm, hmin⟩ := exists_min_rank rank (p :: ps) (by simp)
      have hpred : ((refs m).all fun r => decide (r ∈ done)) = true := by
        rw [List.all_eq_true]
        intro r hr
        rw [decide_eq_true_eq]
        rcases hclosed m hm r hr with hd | hp
        · exact hd
        · exact absurd (hmin r hp) (Nat.not_le.mpr (hrank m hm r hr))
      cases hfind : List.find? (fun x => (refs x).all fun r => decide (r ∈ done))
          (p :: ps) with
      | none =>
        rw [List.find?_eq_none] at hfind
        exact absurd hpred (hfind m hm)
      | some x =>
        have hx : x ∈ p :: ps := List.mem_of_find?_eq_some hfind
        obtain ⟨order, horder⟩ := ih (x :: done) ((p :: ps).erase x)
          (fun y hy => hrank y (List.erase_subset _ _ hy))
          (fun y hy r hr => by
            rcases hclosed y (List.erase_subset _ _ hy) r hr with hd | hp
            · exact Or.inl (List.mem_cons_of_mem _ hd)
            · by_cases hrx : r = x
              · exact Or.inl (hrx ▸ List.mem_cons_self _ _)
              · exact Or.inr ((List.mem_erase_of_ne hrx).mpr hp))
          (by
            rw [List.length_erase_of_mem hx]
            simp only [List.length_cons] at hlen ⊢
            omega)
        refine ⟨order, ?_⟩
        simp only [applyOrder, hfind]
        exact horder

theorem applyOrder_perm [DecidableEq α] (refs : α → List α) :
    ∀ (fuel : Nat) (done pending order : List α),
      applyOrder refs fuel done pending = Except.ok order →
      List.Perm order (done.reverse ++ pending) := by
  intro fuel
  induction fuel with
  | zero =>
    intro done pending order h
    cases pending with
    | nil =>
      simp only [applyOrder, Except.ok.injEq] at h
      subst h
      simp
    | cons p ps => simp [applyOrder] at h
  | succ n ih =>
    intro done pending order h
    cases pending with
    | nil =>
      simp only [applyOrder, Except.ok.injEq] at h
      subst h
      simp
    | cons p ps =>
      simp only [applyOrder] at h
      cases hfind : List.find? (fun x => (refs x).all fun r => decide (r ∈ done))
          (p :: ps) with
      | none => rw [hfind] at h; simp at h
      | some x =>
        rw [hfind] at h
        have hx : x ∈ p :: ps := List.mem_of_find?_eq_some hfind
        have hperm := ih (x :: done) ((p :: ps).erase x) order h
        have h1 : (x :: done).reverse ++ (p :: ps).erase x
            = done.reverse ++ (x :: (p :: ps).erase x) := by
          simp [List.reverse_cons, List.append_assoc]
        have h2 : List.Perm (done.reverse ++ (x :: (p :: ps).erase x))
            (done.reverse ++ (p :: ps)) :=
          List.Perm.append_left _ (List.perm_cons_erase hx).symm
        exact (h1 ▸ hperm).trans h2

theorem goodRev_nil (refs : α → List α) : GoodRev refs [] := by
  intro l₁ x l₂ heq
  cases l₁ <;> simp_all

theorem applyOrder_goodRev [DecidableEq α] (refs : α → List α) :
    ∀ (fuel : Nat) (done pending order : List α),
      GoodRev refs done →
      applyOrder refs fuel done pending = Except.ok order →
      ∃ dfin, order = dfin.reverse ∧ GoodRev refs dfin := by
  intro fuel
  induction fuel with
  | zero =>
    intro done pending order hgood h
    cases pending with
    | nil =>
      simp only [applyOrder, Except.ok.injEq] at h
      exact ⟨done, h.symm, hgood⟩
    | cons p ps => simp [applyOrder] at h
  | succ n ih =>
    intro done pending order hgood h
    cases pending with
    | nil =>
      simp only [applyOrder, Except.ok.injEq] at h
      exact ⟨done, h.symm, hgood⟩
    | cons p ps =>
      simp only [applyOrder] at h
      cases hfind : List.find? (fun x => (refs x).all fun r => decide (r ∈ done))
          (p :: ps) with
      | none => rw [hfind] at h; simp at h
      | some x =>
        rw [hfind] at h
        have hxdone : ∀ r ∈ refs x, r ∈ done := by
          have hp := List.find?_some hfind
          simp only [List.all_eq_true, decide_eq_true_eq] at hp
          exact hp
        have hgood' : GoodRev refs (x :: done) := by
          intro l₁ y l₂ heq r hr
          cases l₁ with
          | nil =>
            rw [List.nil_append, List.cons.injEq] at heq
            obtain ⟨h1, h2⟩ := heq
            subst h1
            subst h2
            exact hxdone r hr
          | cons z zs =>
            rw [List.cons_append, List.cons.injEq] at heq
            exact hgood zs y l₂ heq.2 r hr
        exact ih (x :: done) ((p :: ps).erase x) order hgood' h

theorem respects_of_goodRev (refs : α → List α) (d : List α)
    (h : GoodRev refs d) : RespectsRefs refs d.reverse := by
  intro l₁ x l₂ heq r hr
  have hd : d = l₂.reverse ++ x :: l₁.reverse := by
    have hrev : d = (l₁ ++ x :: l₂).reverse := by
      rw [← heq, List.reverse_reverse]
    rw [hrev]
    simp [List.reverse_append, List.reverse_cons, List.append_assoc]
  exact List.mem_reverse.mp (h _ _ _ hd r hr)

theorem applyGraph_sound [DecidableEq α] (refs : α → List α)
    {nodes order : List α} (h : applyGraph refs nodes = Except.ok order) :
    RespectsRefs refs order := by
  obtain ⟨dfin, rfl, hgood⟩ :=
    applyOrder_goodRev refs nodes.length [] nodes order (goodRev_nil refs) h
  exact respects_of_goodRev refs dfin hgood

theorem applyGraph_perm [DecidableEq α] (refs : α → List α)
    {nodes order : List α} (h : applyGraph refs nodes = Except.ok order) :
    List.Perm order nodes := by
  have hp := applyOrder_perm refs nodes.length [] nodes order h
  simpa using hp

theorem applyGraph_ok_of_acyclic [DecidableEq α] (refs : α → List α)
    (nodes : List α) (hclosed : Closed refs nodes) (hacyc : Acyclic refs nodes) :
    ∃ order, applyGraph refs nodes = Except.ok order := by
  obtain ⟨rank, hrank⟩ := hacyc
  exact applyOrder_ok_of_rank refs rank nodes.length [] nodes hrank
    (fun x hx r hr => Or.inr (hclosed x hx r hr)) (le_refl _)

theorem indexOf_lt_of_respects [DecidableEq α] {refs : α → List α}
    {order : List α} (hresp : RespectsRefs refs order) (hnd : order.Nodup) :
    ∀ x ∈ order, ∀ r ∈ refs x, order.indexOf r < order.indexOf x := by
  intro x hx r hr
  obtain ⟨l₁, l₂, rfl⟩ := List.append_of_mem hx
  have hrl₁ : r ∈ l₁ := hresp l₁ x l₂ rfl r hr
  have hxl₁ : x ∉ l₁ :=
    fun hmem => (List.disjoint_of_nodup_append hnd) hmem (List.mem_cons_self x l₂)
  rw [List.indexOf_append_of_mem hrl₁, List.indexOf_append_of_not_mem hxl₁]
  calc l₁.indexOf r < l₁.length := List.indexOf_lt_length.mpr hrl₁
    _ ≤ l₁.length + (x :: l₂).indexOf x := Nat.le_add_right _ _

theorem refPath_rank_lt {refs : α → List α} {nodes : List α} (rank : α → Nat)
    (hrank : ∀ x ∈ nodes, ∀ r ∈ refs x, rank r < rank x) :
    ∀ {x y : α}, RefPath refs nodes x y → rank y < rank x := by
  intro x y hpath
  induction hpath with
  | single hx hy => exact hrank _ hx _ hy
  | step hx hy _ ih => exact lt_trans ih (hrank _ hx _ hy)

theorem not_hasCycle_of_rank {refs : α → List α} {nodes : List α}
    (rank : α → Nat) (hrank : ∀ x ∈ nodes, ∀ r ∈ refs x, rank r < rank x) :
    ¬ HasCycle refs nodes := by
  rintro ⟨x, hx⟩
  exact lt_irrefl _ (refPath_rank_lt rank hrank hx)

theorem acyclic_of_applyGraph_ok [DecidableEq α] {refs : α → List α}
    {nodes order : List α} (hnd : nodes.Nodup)
    (h : applyGraph refs nodes = Except.ok order) : Acyclic refs nodes := by
  have hperm := applyGraph_perm refs h
  have hresp := applyGraph_sound refs h
  refine ⟨fun x => order.indexOf x, ?_⟩
  intro x hx r hr
  exact indexOf_lt_of_respects hresp (hperm.nodup_iff.mpr hnd) x
    (hperm.mem_iff.mpr hx) r hr

/-- C5: for every closed acyclic graph, `apply` succeeds and produces a
submission order in which a descriptor appears only after every descriptor it
references (never submitting a descriptor before its references are
submitted and resolved); and in the declared graph — submitted in source
order — the role and the table are submitted before the policy that
references the table's ARN, and the role before the function that references
the role's ARN. -/
theorem apply_topological :
    (∀ {α : Type} [DecidableEq α] (refs : α → List α) (nodes : List α),
      Closed refs nodes → Acyclic refs nodes →
      ∃ order, applyGraph refs nodes = Except.ok order ∧
        RespectsRefs refs order) ∧
    (applyGraph brokerRefs brokerNodes = Except.ok brokerNodes ∧
      SubmittedBefore brokerNodes RName.stockApiLambdaRole
        RName.stockApiLambdaDynamoDbPolicy ∧
      SubmittedBefore brokerNodes RName.brokerDataTable
        RName.stockApiLambdaDynamoDbPolicy ∧
      SubmittedBefore brokerNodes RName.stockApiLambdaRole
        RName.brokerBackendFunction) := by
  constructor
  · intro α _ refs nodes hclosed hacyc
    obtain ⟨order, horder⟩ := applyGraph_ok_of_acyclic refs nodes hclosed hacyc
    exact ⟨order, horder, applyGraph_sound refs horder⟩
  · exact ⟨rfl, by decide, by decide, by decide⟩

/-- C5 witness: the quantified part of `apply_topological` instantiated at
the declared graph, its hypotheses discharged on the concrete data. -/
theorem apply_topological_witness :
    ∃ order, applyGraph brokerRefs brokerNodes = Except.ok order ∧
      RespectsRefs brokerRefs order :=
  apply_topological.1 brokerRefs brokerNodes (by decide)
    ⟨brokerRank, by decide⟩

/-- C7: every closed graph (with distinct names) containing a reference
cycle is rejected by `apply` with `CyclicDependencyError` — the only point
at which external provisioning calls would start — and the declared resource
reference graph of the repository is acyclic: no descriptor references a
value that depends on itself, directly or transitively. -/
theorem cycle_rejected :
    (∀ {α : Type} [DecidableEq α] (refs : α → List α) (nodes : List α),
      nodes.Nodup → HasCycle refs nodes →
      applyGraph refs nodes = Except.error ApplyError.CyclicDependencyError) ∧
    ¬ HasCycle brokerRefs brokerNodes := by
  constructor
  · intro α _ refs nodes hnd hcyc
    cases h : applyGraph refs nodes with
    | ok order =>
      obtain ⟨rank, hrank⟩ := acyclic_of_applyGraph_ok hnd h
      exact absurd hcyc (not_hasCycle_of_rank rank hrank)
    | error e => cases e; rfl
  · exact not_hasCycle_of_rank brokerRank (by decide)

/-- C7 witness: a one-node graph whose node references itself is rejected
with `CyclicDependencyError`. -/
theorem cycle_rejected_witness :
    applyGraph (fun _ : Nat => [0]) [0] =
      Except.error ApplyError.CyclicDependencyError :=
  cycle_rejected.1 (fun _ : Nat => [0]) [0] (by decide)
    ⟨0, RefPath.single (by decide) (by decide)⟩

/-- C2 counterexample: the claim that all five routes carry JWT authorization
is false at the `GET /api/auth` route, which is declared with no
`authorization_type` and no `authorizer_id`. -/
theorem routes_jwt_cex :
    auth_profile_route.route_key = "GET /api/auth" ∧
    ¬ (auth_profile_route.authorization_type = some "JWT" ∧
       auth_profile_route.authorizer_id = some RName.brokerJwtAuthorizer) := by
  decide

/-- C2 (amended): of the five declared routes, the four routes
`GET /api/stock-quotes`, `GET /api/company-news`, `GET /api/portfolio` and
`POST /api/portfolio` are declared with JWT authorization linked to the
identity-service authorizer, while `GET /api/auth` is declared with no
authorization at all. -/
theorem routes_jwt :
    quotes_route.route_key = "GET /api/stock-quotes" ∧
    quotes_route.authorization_type = some "JWT" ∧
    quotes_route.authorizer_id = some RName.brokerJwtAuthorizer ∧
    news_route.route_key = "GET /api/company-news" ∧
    news_route.authorization_type = some "JWT" ∧
    news_route.authorizer_id = some RName.brokerJwtAuthorizer ∧
    portfolio_get_route.route_key = "GET /api/portfolio" ∧
    portfolio_get_route.authorization_type = some "JWT" ∧
    portfolio_get_route.authorizer_id = some RName.brokerJwtAuthorizer ∧
    portfolio_post_route.route_key = "POST /api/portfolio" ∧
    portfolio_post_route.authorization_type = some "JWT" ∧
    portfolio_post_route.authorizer_id = some RName.brokerJwtAuthorizer ∧
    auth_profile_route.route_key = "GET /api/auth" ∧
    auth_profile_route.authorization_type = none ∧
    auth_profile_route.authorizer_id = none := by
  decide

/-- C4: evaluating the build at the failing input — the empty configuration
environment, in which the external-service API key, the identity-provider
client id/secret and every other value are absent — the code succeeds with
the full descriptor list instead of raising `MissingConfigurationError`: the
configuration-like environment variables of the compute function are the
hardcoded literal `"null"` and the table name is wired from the declared
table resource, so no configuration is consulted at all. -/
theorem build_ignores_configuration :
    buildGraph (fun _ => none) = Except.ok brokerNodes ∧
    List.lookup "FINNHUB_API_KEY" functionEnvironment = some (EnvVal.lit "null") ∧
    List.lookup "COGNITO_CLIENT_ID" functionEnvironment = some (EnvVal.lit "null") ∧
    List.lookup "COGNITO_CLIENT_SECRET" functionEnvironment =
      some (EnvVal.lit "null") ∧
    List.lookup "DYNAMODB_TABLE_NAME" functionEnvironment =
      some (EnvVal.ref RName.brokerDataTable Attr.nameAttr) :=
  ⟨rfl, by decide⟩

/-- C8: the resolved graph exports exactly the eight declared output values:
the function name, the function ARN, the role ARN, the gateway id, the table
name, the invoke base URL, the identity-pool id and the identity-pool client
id — and the export keys are pairwise distinct. -/
theorem exported_outputs :
    List.Perm (exports.map fun e => (e.key, e.source, e.attr))
      [("lambda_function_name", RName.brokerBackendFunction, Attr.nameAttr),
       ("lambda_function_arn", RName.brokerBackendFunction, Attr.arn),
       ("lambda_role_arn", RName.stockApiLambdaRole, Attr.arn),
       ("api_gateway_id", RName.stockHttpApi, Attr.rid),
       ("dynamodb_table_name", RName.brokerDataTable, Attr.nameAttr),
       ("api_gateway_invoke_url", RName.stockHttpApi, Attr.api_endpoint),
       ("cognito_user_pool_id", RName.brokerUserPool, Attr.rid),
       ("cognito_user_pool_client_id", RName.brokerUserPoolClient, Attr.rid)] ∧
    (exports.map fun e => e.key).Nodup :=
  ⟨List.Perm.refl _, by decide⟩

/-- C10: every declared route that carries JWT authorization references the
single declared authorizer; that authorizer's accepted audience is exactly
the one-element list holding the user pool client's id; and its issuer is
derived from the id of the same user pool that the client belongs to (the
URL shape is `jwtIssuer`). -/
theorem jwt_routes_single_pool :
    (∀ r ∈ apiRoutes, r.authorization_type = some "JWT" →
      r.authorizer_id = some RName.brokerJwtAuthorizer) ∧
    jwt_authorizer.audience = [RName.brokerUserPoolClient] ∧
    jwt_authorizer.issuerPool = RName.brokerUserPool ∧
    user_pool_client.user_pool_id = RName.brokerUserPool :=
  ⟨by decide, rfl, rfl, rfl⟩

/-- C10 witness: the quantified part of `jwt_routes_single_pool` at the
stock-quotes route. -/
theorem jwt_routes_single_pool_witness :
    quotes_route.authorizer_id = some RName.brokerJwtAuthorizer :=
  jwt_routes_single_pool.1 quotes_route (by decide) (by decide)

/-! Helper lemmas about the per-resource diff. -/

theorem lookup_eq_none_of_not_mem_keys {l : FieldMap} {k : String}
    (h : k ∉ l.map Prod.fst) : List.lookup k l = none := by
  rw [List.lookup_eq_none_iff]
  intro p hp
  rw [bne_iff_ne]
  rintro rfl
  exact h (List.mem_map_of_mem Prod.fst hp)

theorem mem_keys_of_lookup_ne {old new : FieldMap} {k : String}
    (h : List.lookup k old ≠ List.lookup k new) :
    k ∈ old.map Prod.fst ++ new.map Prod.fst := by
  by_contra hcon
  rw [List.mem_append, not_or] at hcon
  exact h ((lookup_eq_none_of_not_mem_keys hcon.1).trans
    (lookup_eq_none_of_not_mem_keys hcon.2).symm)

theorem mem_changedKeys {ignored : List String} {old new : FieldMap}
    {k : String} (h : List.lookup k old ≠ List.lookup k new)
    (hk : k ∉ ignored) : k ∈ changedKeys ignored old new := by
  rw [changedKeys, List.mem_filter]
  refine ⟨?_, by simpa using hk⟩
  rw [diffKeys, List.mem_filter, List.mem_dedup]
  exact ⟨mem_keys_of_lookup_ne h, by simpa using h⟩

theorem of_mem_changedKeys {ignored : List String} {old new : FieldMap}
    {k : String} (h : k ∈ changedKeys ignored old new) :
    List.lookup k old ≠ List.lookup k new ∧ k ∉ ignored := by
  rw [changedKeys, List.mem_filter] at h
  obtain ⟨h1, h2⟩ := h
  rw [diffKeys, List.mem_filter] at h1
  exact ⟨by simpa using h1.2, by simpa using h2⟩

theorem planResource_replace {replaceOn ignored : List String}
    {old new : FieldMap} {k : String} (hk : k ∈ changedKeys ignored old new)
    (hrep : k ∈ replaceOn) :
    planResource replaceOn ignored old new = Op.replace := by
  have hne : changedKeys ignored old new ≠ [] := List.ne_nil_of_mem hk
  have hany : ((changedKeys ignored old new).any
      fun k => decide (k ∈ replaceOn)) = true :=
    List.any_eq_true.mpr ⟨k, hk, by simpa using hrep⟩
  simp [planResource, hne, hany]

theorem planResource_update {replaceOn ignored : List String}
    {old new : FieldMap} (hne : changedKeys ignored old new ≠ [])
    (hnorep : ∀ k ∈ changedKeys ignored old new, k ∉ replaceOn) :
    planResource replaceOn ignored old new = Op.update := by
  have hany : ((changedKeys ignored old new).any
      fun k => decide (k ∈ replaceOn)) = false := by
    rw [List.any_eq_false]
    intro k hkc
    simpa using hnorep k hkc
  simp [planResource, hne, hany]

theorem planResource_same {replaceOn ignored : List String}
    {old new : FieldMap} (h : changedKeys ignored old new = []) :
    planResource replaceOn ignored old new = Op.same := by
  simp [planResource, h]

theorem changedKeys_eq_nil {ignored : List String} {old new : FieldMap}
    (h : ∀ k, List.lookup k old = List.lookup k new) :
    changedKeys ignored old new = [] := by
  have hdiff : diffKeys old new = [] := by
    rw [diffKeys, List.filter_eq_nil_iff]
    intro k _
    simpa using h k
  rw [changedKeys, hdiff, List.filter_nil]

/-- C6: in the engine's plan, a change to the integration's
request-parameter mapping field or to any route's target field forces
destroy-then-recreate of that resource; a resource some of whose considered
changed fields exist but none of which is marked replace-on-change receives
a plain in-place update; and a resource none of whose fields changed is not
touched at all. -/
theorem replace_on_change_policy :
    (∀ old new : RName → FieldMap,
      List.lookup "request_parameters" (old RName.brokerBackendIntegration) ≠
        List.lookup "request_parameters" (new RName.brokerBackendIntegration) →
      planGraph old new RName.brokerBackendIntegration = Op.replace) ∧
    (∀ rt ∈ routeNames, ∀ old new : RName → FieldMap,
      List.lookup "target" (old rt) ≠ List.lookup "target" (new rt) →
      planGraph old new rt = Op.replace) ∧
    (∀ (old new : RName → FieldMap) (n : RName),
      changedKeys (ignoreChanges n) (old n) (new n) ≠ [] →
      (∀ k ∈ changedKeys (ignoreChanges n) (old n) (new n),
        k ∉ replaceOnChanges n) →
      planGraph old new n = Op.update) ∧
    (∀ (old new : RName → FieldMap) (n : RName),
      (∀ k, List.lookup k (old n) = List.lookup k (new n)) →
      planGraph old new n = Op.same) := by
  refine ⟨?_, ?_, ?_, ?_⟩
  · intro old new h
    exact planResource_replace (mem_changedKeys h (by decide)) (by decide)
  · intro rt hrt old new h
    fin_cases hrt <;>
      exact planResource_replace (mem_changedKeys h (by decide)) (by decide)
  · intro old new n hne hnorep
    exact planResource_update hne hnorep
  · intro old new n h
    exact planResource_same (changedKeys_eq_nil h)

/-- C6 witness: a concrete change of the integration's
`request_parameters` field yields a replacement. -/
theorem replace_on_change_policy_witness :
    planGraph (fun _ => [("request_parameters", "claims.sub-old")])
      (fun _ => [("request_parameters", "claims.sub-new")])
      RName.brokerBackendIntegration = Op.replace :=
  replace_on_change_policy.1
    (fun _ => [("request_parameters", "claims.sub-old")])
    (fun _ => [("request_parameters", "claims.sub-new")])
    (by decide)

/-- C9: the compute function descriptor ignores changes to its `code`
archive and its `environment` bundle: whenever every field outside the
function's ignore-changes list is unchanged, re-applying plans no operation
at all for the function — it is neither updated in place nor replaced, so
the deployed code and environment are never modified after first creation. -/
theorem function_ignores_code_and_environment :
    ∀ old new : FieldMap,
      (∀ k ∈ old.map Prod.fst ++ new.map Prod.fst,
        k ∉ ignoreChanges RName.brokerBackendFunction →
        List.lookup k old = List.lookup k new) →
      planGraph (fun _ => old) (fun _ => new) RName.brokerBackendFunction =
        Op.same := by
  intro old new h
  apply planResource_same
  rw [List.eq_nil_iff_forall_not_mem]
  intro k hk
  obtain ⟨hdiff, hnig⟩ := of_mem_changedKeys hk
  exact hdiff (h k (mem_keys_of_lookup_ne hdiff) hnig)

/-- C9 witness: changing only the function's `code` field plans no
operation. -/
theorem function_ignores_code_and_environment_witness :
    planGraph
      (fun _ => [("code", "deploy-v1"), ("handler", "broker.lambda_handler")])
      (fun _ => [("code", "deploy-v2"), ("handler", "broker.lambda_handler")])
      RName.brokerBackendFunction = Op.same :=
  function_ignores_code_and_environment
    [("code", "deploy-v1"), ("handler", "broker.lambda_handler")]
    [("code", "deploy-v2"), ("handler", "broker.lambda_handler")]
    (by decide)

end AwsInfra
